import Mathlib

/-!
Shallow embedding of the `comm` recipient-resolution and templated
message-construction pipeline (`src/lib/comm/user_table.py` and
`src/lib/comm/templated.py`).

Python dicts are modelled as ordered association lists with
insertion-order-preserving, overwrite-in-place insertion (`dinsert`),
matching CPython dict semantics.  An absent key (Python `KeyError`) is
modelled with `Option`; exceptions escaping `build_messages` are
modelled with `Except PyErr`.
-/

/-- Lookup in an ordered association list: the value of the first pair
whose key matches.  Models the Python dict subscript `d[k]`, with
`none` standing for `KeyError`. -/
def dfind {α : Type} : List (String × α) → String → Option α
  | [], _ => Option.none
  | (k, v) :: rest, key => if k = key then some v else dfind rest key

/-- Assignment `d[k] = v` with Python dict semantics: an existing key
keeps its position and receives the new value; a new key is appended at
the end. -/
def dinsert {α : Type} : List (String × α) → String → α → List (String × α)
  | [], key, v => [(key, v)]
  | (k, w) :: rest, key, v =>
    if k = key then (key, v) :: rest else (k, w) :: dinsert rest key v

/-- A user record (`comm.user_table.User`): a mapping from platform
name to the ordered list of that user's identifiers on the platform. -/
abbrev User := List (String × List String)

/-- Model of `User.get_ids` (`user[platform]`): the identifier list registered
for the platform in this record. -/
def User.get_ids (user : User) (platform : String) : Option (List String) :=
  dfind user platform

/-- The record lists identifier `uid` for platform `platform`: some
entry of the record has that platform as key and contains `uid`. -/
def User.lists (user : User) (platform uid : String) : Prop :=
  ∃ e ∈ user, e.1 = platform ∧ uid ∈ e.2

instance (user : User) (platform uid : String) :
    Decidable (User.lists user platform uid) :=
  show Decidable (∃ e ∈ user, e.1 = platform ∧ uid ∈ e.2) from
    List.decidableBEx _ user

/-- The per-platform identifier index: identifier to owning record. -/
abbrev IdMap := List (String × User)

/-- The full index: platform name to identifier index. -/
abbrev PlatformMap := List (String × IdMap)

/-- The inner loop of `UserTable._build_mappings`: register every
identifier of `ids` as owned by `user` in the identifier index,
overwriting prior owners. -/
def insert_ids (user : User) : IdMap → List String → IdMap
  | idMap, [] => idMap
  | idMap, uid :: rest => insert_ids user (dinsert idMap uid user) rest

/-- The middle loop of `UserTable._build_mappings`: for each platform
entry of the record, fetch (or create empty) the platform's identifier
index and register the record's identifiers in it. -/
def insert_user (pm : PlatformMap) (user : User) : List (String × List String) → PlatformMap
  | [] => pm
  | (platform, ids) :: rest =>
    insert_user
      (dinsert pm platform (insert_ids user ((dfind pm platform).getD []) ids))
      user rest

/-- Model of `UserTable._build_mappings`: fold every record of the table into
the platform index, in input order. -/
def _build_mappings : PlatformMap → List User → PlatformMap
  | pm, [] => pm
  | pm, user :: rest => _build_mappings (insert_user pm user user) rest

/-- Model of `comm.user_table.UserTable`: the record list plus the index built
once at construction. -/
structure UserTable where
  data : List User
  mappings : PlatformMap
deriving DecidableEq

/-- Model of `UserTable.__init__`: store the records and build the index. -/
def UserTable.init (data : List User) : UserTable :=
  ⟨data, _build_mappings [] data⟩

/-- Model of `UserTable.get_users`: the identifier-to-record index for a
platform; `none` models the `KeyError` for a never-seen platform. -/
def UserTable.get_users (t : UserTable) (platform : String) : Option IdMap :=
  dfind t.mappings platform

/-- Model of `UserTable.get_user`: resolve one identifier on one platform;
`none` models the `KeyError` when either lookup fails. -/
def UserTable.get_user (t : UserTable) (platform username : String) : Option User :=
  (t.get_users platform).bind (fun idMap => dfind idMap username)

/-- Model of `UserTable.get_unrecognized`: the list-comprehension filter keeping
the usernames absent from `get_users platform`.  The `get_users` call
is evaluated per element, so an unknown platform raises (`none`) only
once some element is examined. -/
def UserTable.get_unrecognized (t : UserTable) (platform : String) : List String → Option (List String)
  | [] => some []
  | username :: rest =>
    match t.get_users platform with
    | Option.none => Option.none
    | some idMap =>
      match t.get_unrecognized platform rest with
      | Option.none => Option.none
      | some out => some (if (dfind idMap username).isSome then out else username :: out)

/-- Composite lookup through a platform index: platform first, then
identifier. -/
def mappings_lookup (pm : PlatformMap) (platform uid : String) : Option User :=
  match dfind pm platform with
  | Option.none => Option.none
  | some idMap => dfind idMap uid

/-- The record owning `(platform, uid)` after a left-to-right build:
the last record in the list that lists `uid` for `platform`. -/
def last_lister : List User → String → String → Option User
  | [], _, _ => Option.none
  | user :: rest, platform, uid =>
    match last_lister rest platform uid with
    | some w => some w
    | Option.none => if User.lists user platform uid then some user else Option.none

/-- The Python exceptions that can escape the message-construction
pipeline: `KeyError` (missing platform or identifier), `TypeError`
(builder output not unpackable, re-raised as the tuple-contract error),
`IndexError` (template placeholder beyond the argument count). -/
inductive PyErr where
  | keyError : PyErr
  | typeError : PyErr
  | indexError : PyErr
deriving DecidableEq

/-- The values a `template_input_builder` can return: Python `None`
(the absence marker), a tuple/sequence of strings, a bare string, or a
non-iterable value such as an int. -/
inductive PyVal where
  | none : PyVal
  | tuple : List String → PyVal
  | str : String → PyVal
  | int : Int → PyVal
deriving DecidableEq

/-- The Python `is None` test on a builder result. -/
def PyVal.is_none : PyVal → Bool
  | PyVal.none => true
  | _ => false

/-- Python star-unpacking `f(*v)`: a tuple unpacks to its elements, a
string unpacks to its characters as one-character strings, `None` and
non-iterables raise `TypeError`. -/
def star_unpack : PyVal → Except PyErr (List String)
  | PyVal.tuple xs => Except.ok xs
  | PyVal.str s => Except.ok (s.toList.map (fun c => String.mk [c]))
  | PyVal.none => Except.error PyErr.typeError
  | PyVal.int _ => Except.error PyErr.typeError

/-- Character-level model of `str.format` restricted to auto-numbered
positional fields: each occurrence of the two characters `\x7b\x7d`
consumes the next argument, running out of arguments raises
`IndexError`, extra arguments are ignored, all other characters are
literal.  (The formatting engine proper is out of the spec's scope;
this captures the placeholder templates the spec uses.) -/
def format_chars : List Char → List String → Except PyErr (List Char)
  | [], _ => Except.ok []
  | '{' :: '}' :: rest, args =>
    match args with
    | [] => Except.error PyErr.indexError
    | a :: args2 =>
      match format_chars rest args2 with
      | Except.error e => Except.error e
      | Except.ok out => Except.ok (a.toList ++ out)
  | c :: rest, args =>
    match format_chars rest args with
    | Except.error e => Except.error e
    | Except.ok out => Except.ok (c :: out)

/-- Model of `template.format(*args)` on a template string. -/
def py_format (template : String) (args : List String) : Except PyErr String :=
  match format_chars template.toList args with
  | Except.error e => Except.error e
  | Except.ok out => Except.ok (String.mk out)

/-- A platform recipient object; `get_id` is its stable identifier. -/
structure Recipient where
  id : String
deriving DecidableEq

/-- Model of `recipient.get_id()`. -/
def Recipient.get_id (r : Recipient) : String := r.id

/-- Model of `comm.basic.Message`: the immutable (sender, recipient, content)
triple.  Modelled from the spec: the `comm.basic` module is not part of
the provided sources. -/
structure Message where
  sender : String
  recipient : Recipient
  content : String
deriving DecidableEq

/-- Modelled from the spec: `comm.basic.build_messages` produces one
unfilled message per recipient, in input order, all sharing the sender
and the template content. -/
def basic_build_messages (sender : String) (recipients : List Recipient)
    (content : String) : List Message :=
  recipients.map (fun r => ⟨sender, r, content⟩)

/-- The per-message loop of `comm.templated.build_messages`: resolve
the recipient (skip with a diagnostic on `KeyError`), call the builder
(skip silently on `None`), star-unpack the result into the template
(`TypeError` is re-raised as the tuple-contract error, other errors
propagate), and append the filled message.  An error discards all
accumulated messages, as a Python exception would. -/
def fill_messages {Data : Type} (platform_name : String) (user_table : UserTable)
    (templating_data : Data) (tib : User → Data → PyVal) :
    List Message → Except PyErr (List Message)
  | [] => Except.ok []
  | message :: rest =>
    match user_table.get_user platform_name message.recipient.get_id with
    | Option.none => fill_messages platform_name user_table templating_data tib rest
    | some user =>
      let template_input := tib user templating_data
      if template_input.is_none then
        fill_messages platform_name user_table templating_data tib rest
      else
        match star_unpack template_input with
        | Except.error _ => Except.error PyErr.typeError
        | Except.ok args =>
          match py_format message.content args with
          | Except.error e => Except.error e
          | Except.ok filled =>
            match fill_messages platform_name user_table templating_data tib rest with
            | Except.error e => Except.error e
            | Except.ok out => Except.ok (⟨message.sender, message.recipient, filled⟩ :: out)

/-- Model of `comm.templated.build_messages`: build the unfilled messages for
all recipients, then fill them per recipient.  The platform object is
represented by its registry name (`platforms.platform_name[type(platform)]`),
since the adapter registry is an external collaborator. -/
def build_messages {Data : Type} (platform_name sender : String)
    (recipients : List Recipient) (content : String) (templating_data : Data)
    (user_table : UserTable) (tib : User → Data → PyVal) :
    Except PyErr (List Message) :=
  fill_messages platform_name user_table templating_data tib
    (basic_build_messages sender recipients content)

/-- A recipient for which `build_messages` emits a message: its
identifier resolves and the builder returns something other than the
absence marker. -/
def produces {Data : Type} (platform_name : String) (user_table : UserTable)
    (templating_data : Data) (tib : User → Data → PyVal) (r : Recipient) : Bool :=
  match user_table.get_user platform_name r.get_id with
  | Option.none => false
  | some user => !(tib user templating_data).is_none

/-- A recipient absent from the identity table for the platform. -/
def unresolvable (platform_name : String) (user_table : UserTable)
    (r : Recipient) : Bool :=
  (user_table.get_user platform_name r.get_id).isNone

/-- A resolvable recipient for which the builder returned the absence
marker `None`. -/
def builder_absent {Data : Type} (platform_name : String) (user_table : UserTable)
    (templating_data : Data) (tib : User → Data → PyVal) (r : Recipient) : Bool :=
  match user_table.get_user platform_name r.get_id with
  | Option.none => false
  | some user => (tib user templating_data).is_none

/-- Model of `comm.templated.build_resources`, restricted to the logic the spec
keeps in scope: build the user table and resolve the recipient list —
an empty caller-supplied list is replaced by all identifiers known to
the table for the platform (`[*user_table.get_users(platform_name)]`,
the key list in index insertion order), a non-empty list passes through
unchanged.  `none` models the `KeyError` when the platform is unknown.
Construction of the platform-specific sender/recipient objects is
external glue. -/
def build_resources (platform_name : String) (recipients_data : List String)
    (user_table_data : List User) : Option (List String × UserTable) :=
  let user_table := UserTable.init user_table_data
  if recipients_data = [] then
    match user_table.get_users platform_name with
    | Option.none => Option.none
    | some idMap => some (idMap.map Prod.fst, user_table)
  else
    some (recipients_data, user_table)

/-- Model of `comm.templated.send_to_all`, up to the external send primitive:
resolve resources, then build the personalized messages.  Modelled from
the spec where it leans on `comm.basic`: resolved identifiers become
recipient objects whose `get_id` returns the identifier, and the
per-message send loop (external transport) is represented by returning
the built message list. -/
def send_to_all {Data : Type} (platform_name sender : String)
    (recipients_data : List String) (content : String) (templating_data : Data)
    (user_table_data : List User) (tib : User → Data → PyVal) :
    Except PyErr (List Message) :=
  match build_resources platform_name recipients_data user_table_data with
  | Option.none => Except.error PyErr.keyError
  | some (resolved, user_table) =>
    build_messages platform_name sender (resolved.map Recipient.mk) content
      templating_data user_table tib


theorem dfind_dinsert {α : Type} (m : List (String × α)) (k key : String) (v : α) :
    dfind (dinsert m key v) k = if k = key then some v else dfind m k := by
  induction m with
  | nil =>
    simp only [dinsert, dfind]
    by_cases h : k = key
    · simp [h]
    · simp [h, Ne.symm h]
  | cons hd tl ih =>
    obtain ⟨k', v'⟩ := hd
    simp only [dinsert]
    by_cases h1 : k' = key
    · subst h1
      simp only [if_pos rfl, dfind]
      by_cases h2 : k = k'
      · simp [h2]
      · simp [h2, Ne.symm h2]
    · simp only [if_neg h1, dfind]
      by_cases h2 : k' = k
      · have hk : ¬ k = key := fun h => h1 (h2.trans h)
        simp [h2, hk]
      · simp [h2, ih]

theorem insert_ids_find (user : User) (im : IdMap) (ids : List String) (x : String) :
    dfind (insert_ids user im ids) x = if x ∈ ids then some user else dfind im x := by
  induction ids generalizing im with
  | nil => simp [insert_ids]
  | cons uid rest ih =>
    simp only [insert_ids]
    rw [ih]
    by_cases hx : x ∈ rest
    · simp [hx, List.mem_cons]
    · by_cases h2 : x = uid
      · simp [h2, dfind_dinsert]
      · simp [hx, h2, dfind_dinsert, List.mem_cons]

theorem insert_user_lookup (pm : PlatformMap) (user : User)
    (entries : List (String × List String)) (p x : String) :
    mappings_lookup (insert_user pm user entries) p x =
      if User.lists entries p x then some user else mappings_lookup pm p x := by
  induction entries generalizing pm with
  | nil => simp [insert_user, User.lists]
  | cons e rest ih =>
    obtain ⟨q, ids⟩ := e
    simp only [insert_user]
    rw [ih]
    have hstep :
        mappings_lookup
          (dinsert pm q (insert_ids user ((dfind pm q).getD []) ids)) p x =
          if q = p ∧ x ∈ ids then some user else mappings_lookup pm p x := by
      unfold mappings_lookup
      by_cases hq : p = q
      · subst hq
        cases hfind : dfind pm p with
        | none =>
          by_cases hx : x ∈ ids <;>
            simp [dfind_dinsert, insert_ids_find, hfind, hx, dfind]
        | some im =>
          by_cases hx : x ∈ ids <;>
            simp [dfind_dinsert, insert_ids_find, hfind, hx]
      · have hne : ¬ (q = p ∧ x ∈ ids) := fun h => hq h.1.symm
        simp [dfind_dinsert, hq, hne]
    rw [hstep]
    by_cases hr : User.lists rest p x
    · have hcons : User.lists ((q, ids) :: rest) p x := by
        obtain ⟨e, he, hp, hx⟩ := hr
        exact ⟨e, List.mem_cons_of_mem _ he, hp, hx⟩
      simp [hr, hcons]
    · by_cases hh : q = p ∧ x ∈ ids
      · obtain ⟨hq, hx⟩ := hh
        subst hq
        have hcons : User.lists ((q, ids) :: rest) q x :=
          ⟨(q, ids), List.mem_cons_self _ _, rfl, hx⟩
        simp [hr, hx, hcons]
      · have hcons : ¬ User.lists ((q, ids) :: rest) p x := by
          intro h
          obtain ⟨e, he, hp, hx⟩ := h
          rcases List.mem_cons.mp he with rfl | hmem
          · exact hh ⟨hp, hx⟩
          · exact hr ⟨e, hmem, hp, hx⟩
        simp [hr, hh, hcons]

theorem build_lookup (users : List User) (pm : PlatformMap) (p x : String) :
    mappings_lookup (_build_mappings pm users) p x =
      match last_lister users p x with
      | some u => some u
      | Option.none => mappings_lookup pm p x := by
  induction users generalizing pm with
  | nil => simp [_build_mappings, last_lister]
  | cons u rest ih =>
    simp only [_build_mappings, last_lister]
    rw [ih]
    cases hr : last_lister rest p x with
    | some w => simp
    | none =>
      rw [insert_user_lookup]
      by_cases hl : User.lists u p x <;> simp [hl]

theorem get_user_init (users : List User) (p x : String) :
    (UserTable.init users).get_user p x = last_lister users p x := by
  have hml : (UserTable.init users).get_user p x =
      mappings_lookup (_build_mappings [] users) p x := by
    unfold UserTable.get_user UserTable.get_users UserTable.init mappings_lookup
    cases dfind (_build_mappings [] users) p <;> rfl
  rw [hml, build_lookup]
  cases last_lister users p x <;> simp [mappings_lookup, dfind]

theorem last_lister_mem (users : List User) (p x : String) (w : User)
    (h : last_lister users p x = some w) : w ∈ users ∧ User.lists w p x := by
  induction users with
  | nil => simp [last_lister] at h
  | cons u rest ih =>
    rw [last_lister] at h
    split at h
    · rename_i v heq
      cases h
      obtain ⟨hmem, hl⟩ := ih heq
      exact ⟨List.mem_cons_of_mem _ hmem, hl⟩
    · by_cases hl : User.lists u p x
      · rw [if_pos hl] at h
        cases h
        exact ⟨List.mem_cons_self _ _, hl⟩
      · rw [if_neg hl] at h
        cases h

theorem last_lister_of_mem (users : List User) (p x : String) (u : User)
    (hu : u ∈ users) (hl : User.lists u p x) :
    ∃ w, last_lister users p x = some w := by
  induction users with
  | nil => cases hu
  | cons v rest ih =>
    simp only [last_lister]
    cases hr : last_lister rest p x with
    | some w => exact ⟨w, rfl⟩
    | none =>
      rcases List.mem_cons.mp hu with rfl | hmem
      · exact ⟨u, by rw [if_pos hl]⟩
      · obtain ⟨w, hw⟩ := ih hmem
        rw [hw] at hr
        cases hr

theorem last_lister_append (l1 l2 : List User) (p x : String) :
    last_lister (l1 ++ l2) p x =
      match last_lister l2 p x with
      | some w => some w
      | Option.none => last_lister l1 p x := by
  induction l1 with
  | nil =>
    simp only [List.nil_append, last_lister]
    cases last_lister l2 p x <;> rfl
  | cons u rest ih =>
    simp only [List.cons_append, last_lister, List.append_eq]
    rw [ih]
    cases last_lister l2 p x <;> cases last_lister rest p x <;> simp

theorem last_lister_none (l : List User) (p x : String)
    (h : ∀ u ∈ l, ¬ User.lists u p x) : last_lister l p x = Option.none := by
  induction l with
  | nil => rfl
  | cons u rest ih =>
    simp only [last_lister]
    rw [ih (fun v hv => h v (List.mem_cons_of_mem _ hv))]
    rw [if_neg (h u (List.mem_cons_self _ _))]

theorem dfind_of_lists (u : User) (p x : String)
    (hnd : (u.map Prod.fst).Nodup) (h : User.lists u p x) :
    ∃ ids, dfind u p = some ids ∧ x ∈ ids := by
  obtain ⟨e, he, hp, hx⟩ := h
  induction u with
  | nil => cases he
  | cons hd tl ih =>
    obtain ⟨k, w⟩ := hd
    simp only [List.map_cons, List.nodup_cons] at hnd
    rcases List.mem_cons.mp he with rfl | hmem
    · simp only [dfind]
      rw [if_pos hp]
      exact ⟨w, rfl, hx⟩
    · have hk : ¬ k = p := by
        intro hk
        subst hk
        exact hnd.1 (hp ▸ List.mem_map_of_mem Prod.fst hmem)
      simp only [dfind, if_neg hk]
      exact ih hnd.2 hmem

theorem dfind_eq_none_iff {α : Type} (m : List (String × α)) (k : String) :
    dfind m k = Option.none ↔ ¬ k ∈ m.map Prod.fst := by
  induction m with
  | nil => simp [dfind]
  | cons hd tl ih =>
    obtain ⟨k', v'⟩ := hd
    simp only [dfind, List.map_cons, List.mem_cons]
    by_cases h : k' = k
    · simp [h]
    · simp [h, ih, Ne.symm h]

theorem get_unrecognized_eq_filter (t : UserTable) (p : String) (im : IdMap)
    (h : t.get_users p = some im) (ids : List String) :
    t.get_unrecognized p ids =
      some (ids.filter (fun u => (dfind im u).isNone)) := by
  induction ids with
  | nil => simp [UserTable.get_unrecognized]
  | cons a rest ih =>
    rw [UserTable.get_unrecognized, h, ih]
    cases ha : dfind im a with
    | none => simp [ha, List.filter_cons]
    | some u => simp [ha, List.filter_cons]

theorem dfind_insert_user_unseen (pm : PlatformMap) (user : User)
    (entries : List (String × List String)) (p : String)
    (h : ∀ e ∈ entries, ¬ e.1 = p) :
    dfind (insert_user pm user entries) p = dfind pm p := by
  induction entries generalizing pm with
  | nil => rfl
  | cons e rest ih =>
    obtain ⟨q, ids⟩ := e
    rw [insert_user]
    rw [ih _ (fun e he => h e (List.mem_cons_of_mem _ he))]
    rw [dfind_dinsert]
    have hq : ¬ q = p := h (q, ids) (List.mem_cons_self _ _)
    rw [if_neg (fun hpq => hq hpq.symm)]

theorem get_users_unseen (users : List User) (p : String)
    (h : ∀ u ∈ users, ∀ e ∈ u, ¬ e.1 = p) :
    (UserTable.init users).get_users p = Option.none := by
  have hgen : ∀ pm : PlatformMap,
      dfind (_build_mappings pm users) p = dfind pm p := by
    induction users with
    | nil => intro pm; rfl
    | cons u rest ih =>
      intro pm
      rw [_build_mappings]
      rw [ih (fun v hv => h v (List.mem_cons_of_mem _ hv))]
      exact dfind_insert_user_unseen pm u u p (h u (List.mem_cons_self _ _))
  unfold UserTable.get_users UserTable.init
  exact hgen []

/-- C2: if two records of the table both list identifier `x` for
platform `p`, and the second of them is the last record doing so, then
`get_user p x` returns that later record in input order: the later
record overwrote the earlier one in the index and no error is
raised. -/
theorem get_user_last_write (pre mid post : List User) (early late : User)
    (p x : String)
    (he : User.lists early p x) (hl : User.lists late p x)
    (hpost : ∀ u ∈ post, ¬ User.lists u p x) :
    (UserTable.init (pre ++ early :: (mid ++ late :: post))).get_user p x
      = some late := by
  rw [get_user_init, last_lister_append]
  have hpost' : last_lister post p x = Option.none := last_lister_none post p x hpost
  have htail : last_lister (early :: (mid ++ late :: post)) p x = some late := by
    rw [last_lister, last_lister_append, last_lister, hpost', if_pos hl]
  rw [htail]

theorem get_user_last_write_witness :
    User.lists [("p", ["x"])] "p" "x" ∧
    User.lists [("p", ["x"]), ("q", ["y"])] "p" "x" ∧
    (UserTable.init [[("p", ["x"])], [("p", ["x"]), ("q", ["y"])]]).get_user "p" "x"
      = some [("p", ["x"]), ("q", ["y"])] :=
  ⟨by decide, by decide,
    get_user_last_write [] [] [] [("p", ["x"])] [("p", ["x"]), ("q", ["y"])]
      "p" "x" (by decide) (by decide) (by intro u hu; cases hu)⟩

/-- C6: for a table built from records whose platform keys are distinct
within each record (as Python dicts guarantee), every `(platform, id)`
pair listed by some input record resolves: `get_user platform id`
succeeds and returns a record whose identifier list for that platform
contains `id`. -/
theorem get_user_index_correct (users : List User) (p x : String) (u : User)
    (hwf : ∀ v ∈ users, (v.map Prod.fst).Nodup)
    (hu : u ∈ users) (hl : User.lists u p x) :
    ∃ R, (UserTable.init users).get_user p x = some R ∧
      ∃ ids, User.get_ids R p = some ids ∧ x ∈ ids := by
  obtain ⟨w, hw⟩ := last_lister_of_mem users p x u hu hl
  obtain ⟨hwmem, hwl⟩ := last_lister_mem users p x w hw
  refine ⟨w, ?_, ?_⟩
  · rw [get_user_init]
    exact hw
  · exact dfind_of_lists w p x (hwf w hwmem) hwl

theorem get_user_index_correct_witness :
    (∀ v ∈ [[("p", ["x"])]], (List.map Prod.fst v).Nodup) ∧
    (∃ R, (UserTable.init [[("p", ["x"])]]).get_user "p" "x" = some R ∧
      ∃ ids, User.get_ids R "p" = some ids ∧ "x" ∈ ids) :=
  ⟨by decide,
    get_user_index_correct [[("p", ["x"])]] "p" "x" [("p", ["x"])]
      (by decide) (by decide) (by decide)⟩

/-- C7: for a table whose index contains platform `p` with identifier
index `im`, `get_unrecognized p ids` returns exactly the
order-preserving sub-sequence of `ids` absent from the key set of
`get_users p`; the result is a sublist of `ids` and disjoint from that
key set.  The operation is pure: it is a function of the table and its
arguments, and the table is not changed. -/
theorem get_unrecognized_filter (t : UserTable) (p : String) (im : IdMap)
    (ids : List String) (h : t.get_users p = some im) :
    t.get_unrecognized p ids =
        some (ids.filter (fun u => (dfind im u).isNone)) ∧
    (ids.filter (fun u => (dfind im u).isNone)).Sublist ids ∧
    ∀ u ∈ ids.filter (fun u => (dfind im u).isNone), ¬ u ∈ im.map Prod.fst := by
  refine ⟨get_unrecognized_eq_filter t p im h ids, List.filter_sublist ids, ?_⟩
  intro u hu
  have hn : (dfind im u).isNone = true := by
    simpa using (List.mem_filter.mp hu).2
  exact (dfind_eq_none_iff im u).mp (Option.isNone_iff_eq_none.mp hn)

theorem get_unrecognized_filter_witness :
    (UserTable.init [[("p", ["x"])]]).get_users "p"
        = some [("x", [("p", ["x"])])] ∧
    ((UserTable.init [[("p", ["x"])]]).get_unrecognized "p" ["x", "y"] =
        some (["x", "y"].filter
          (fun u => (dfind [("x", [("p", ["x"])])] u).isNone)) ∧
      (["x", "y"].filter
          (fun u => (dfind [("x", [("p", ["x"])])] u).isNone)).Sublist ["x", "y"] ∧
      ∀ u ∈ ["x", "y"].filter
          (fun u => (dfind [("x", [("p", ["x"])])] u).isNone),
        ¬ u ∈ List.map Prod.fst [("x", [("p", ["x"])])]) :=
  ⟨rfl, get_unrecognized_filter (UserTable.init [[("p", ["x"])]]) "p"
    [("x", [("p", ["x"])])] ["x", "y"] rfl⟩

/-- C8: for a table built from records never mentioning platform `p`,
`get_unrecognized p ids` returns the empty list when `ids` is empty
(the failing `get_users` lookup is never evaluated), but fails with the
`KeyError` (`NotFoundError`) as soon as `ids` is non-empty, because the
per-element membership test performs the platform lookup. -/
theorem get_unrecognized_unknown_platform (users : List User) (p : String)
    (h : ∀ u ∈ users, ∀ e ∈ u, ¬ e.1 = p) :
    (UserTable.init users).get_unrecognized p [] = some [] ∧
    ∀ ids : List String, ¬ ids = [] →
      (UserTable.init users).get_unrecognized p ids = Option.none := by
  have hgu := get_users_unseen users p h
  refine ⟨rfl, ?_⟩
  intro ids hne
  cases ids with
  | nil => exact absurd rfl hne
  | cons a rest => rw [UserTable.get_unrecognized, hgu]

theorem get_unrecognized_unknown_platform_witness :
    (UserTable.init [[("q", ["x"])]]).get_unrecognized "p" [] = some [] ∧
    (UserTable.init [[("q", ["x"])]]).get_unrecognized "p" ["x"] = Option.none :=
  ⟨(get_unrecognized_unknown_platform [[("q", ["x"])]] "p" (by decide)).1,
    (get_unrecognized_unknown_platform [[("q", ["x"])]] "p" (by decide)).2
      ["x"] (by decide)⟩

/-- C10: when exactly one input record lists `x` for `p`, the record
returned by `get_user p x` is that complete multi-platform record: its
identifier list for every platform `q` equals the input record's list
for `q` — the index stores whole records, never a projection to the
queried platform. -/
theorem get_user_complete_record (users : List User) (p x : String) (u : User)
    (hu : u ∈ users) (hl : User.lists u p x)
    (huniq : ∀ v ∈ users, User.lists v p x → v = u) :
    ∃ R, (UserTable.init users).get_user p x = some R ∧
      ∀ q, User.get_ids R q = User.get_ids u q := by
  obtain ⟨w, hw⟩ := last_lister_of_mem users p x u hu hl
  obtain ⟨hwmem, hwl⟩ := last_lister_mem users p x w hw
  have hwu : w = u := huniq w hwmem hwl
  subst hwu
  refine ⟨w, ?_, fun q => rfl⟩
  rw [get_user_init]
  exact hw

theorem get_user_complete_record_witness :
    (∃ R, (UserTable.init [[("p", ["x"]), ("q", ["y"])]]).get_user "p" "x"
        = some R ∧
      ∀ q, User.get_ids R q = User.get_ids [("p", ["x"]), ("q", ["y"])] q) ∧
    User.get_ids [("p", ["x"]), ("q", ["y"])] "q" = some ["y"] :=
  ⟨get_user_complete_record [[("p", ["x"]), ("q", ["y"])]] "p" "x"
      [("p", ["x"]), ("q", ["y"])] (by decide) (by decide) (by decide),
    rfl⟩

theorem basic_build_messages_cons (s : String) (r : Recipient)
    (rest : List Recipient) (c : String) :
    basic_build_messages s (r :: rest) c =
      ⟨s, r, c⟩ :: basic_build_messages s rest c := rfl

theorem fill_messages_cons {Data : Type} (pn : String) (ut : UserTable)
    (td : Data) (tib : User → Data → PyVal) (s c : String) (r : Recipient)
    (ms : List Message) :
    fill_messages pn ut td tib (⟨s, r, c⟩ :: ms) =
      match ut.get_user pn r.get_id with
      | Option.none => fill_messages pn ut td tib ms
      | some user =>
        if (tib user td).is_none then fill_messages pn ut td tib ms
        else
          match star_unpack (tib user td) with
          | Except.error _ => Except.error PyErr.typeError
          | Except.ok args =>
            match py_format c args with
            | Except.error e => Except.error e
            | Except.ok filled =>
              match fill_messages pn ut td tib ms with
              | Except.error e => Except.error e
              | Except.ok out => Except.ok (⟨s, r, filled⟩ :: out) := rfl

theorem produces_partition {Data : Type} (pn : String) (ut : UserTable)
    (td : Data) (tib : User → Data → PyVal) (recipients : List Recipient) :
    recipients.countP (produces pn ut td tib)
      + recipients.countP (unresolvable pn ut)
      + recipients.countP (builder_absent pn ut td tib)
      = recipients.length := by
  induction recipients with
  | nil => rfl
  | cons r rest ih =>
    simp only [List.countP_cons, List.length_cons]
    cases hg : ut.get_user pn r.get_id with
    | none =>
      have h1 : produces pn ut td tib r = false := by simp [produces, hg]
      have h2 : unresolvable pn ut r = true := by simp [unresolvable, hg]
      have h3 : builder_absent pn ut td tib r = false := by
        simp [builder_absent, hg]
      rw [h1, h2, h3]
      simp only [if_true, if_false, Bool.false_eq_true]
      omega
    | some user =>
      cases hn : PyVal.is_none (tib user td) with
      | true =>
        have h1 : produces pn ut td tib r = false := by simp [produces, hg, hn]
        have h2 : unresolvable pn ut r = false := by simp [unresolvable, hg]
        have h3 : builder_absent pn ut td tib r = true := by
          simp [builder_absent, hg, hn]
        rw [h1, h2, h3]
        simp only [if_true, if_false, Bool.false_eq_true]
        omega
      | false =>
        have h1 : produces pn ut td tib r = true := by simp [produces, hg, hn]
        have h2 : unresolvable pn ut r = false := by simp [unresolvable, hg]
        have h3 : builder_absent pn ut td tib r = false := by
          simp [builder_absent, hg, hn]
        rw [h1, h2, h3]
        simp only [if_true, if_false, Bool.false_eq_true]
        omega

theorem fill_cons_skip_missing {Data : Type} (pn : String) (ut : UserTable)
    (td : Data) (tib : User → Data → PyVal) (s c : String) (r : Recipient)
    (ms : List Message) (hg : ut.get_user pn r.get_id = Option.none) :
    fill_messages pn ut td tib (⟨s, r, c⟩ :: ms) =
      fill_messages pn ut td tib ms := by
  rw [fill_messages_cons, hg]

theorem fill_cons_skip_none {Data : Type} (pn : String) (ut : UserTable)
    (td : Data) (tib : User → Data → PyVal) (s c : String) (r : Recipient)
    (ms : List Message) (user : User)
    (hg : ut.get_user pn r.get_id = some user)
    (hn : (tib user td).is_none = true) :
    fill_messages pn ut td tib (⟨s, r, c⟩ :: ms) =
      fill_messages pn ut td tib ms := by
  simp [fill_messages_cons, hg, hn]

theorem fill_cons_unpack_error {Data : Type} (pn : String) (ut : UserTable)
    (td : Data) (tib : User → Data → PyVal) (s c : String) (r : Recipient)
    (ms : List Message) (user : User) (e : PyErr)
    (hg : ut.get_user pn r.get_id = some user)
    (hn : (tib user td).is_none = false)
    (hu : star_unpack (tib user td) = Except.error e) :
    fill_messages pn ut td tib (⟨s, r, c⟩ :: ms) =
      Except.error PyErr.typeError := by
  simp [fill_messages_cons, hg, hn, hu]

theorem fill_cons_format_error {Data : Type} (pn : String) (ut : UserTable)
    (td : Data) (tib : User → Data → PyVal) (s c : String) (r : Recipient)
    (ms : List Message) (user : User) (args : List String) (e : PyErr)
    (hg : ut.get_user pn r.get_id = some user)
    (hn : (tib user td).is_none = false)
    (hu : star_unpack (tib user td) = Except.ok args)
    (hf : py_format c args = Except.error e) :
    fill_messages pn ut td tib (⟨s, r, c⟩ :: ms) = Except.error e := by
  simp [fill_messages_cons, hg, hn, hu, hf]

theorem fill_cons_ok {Data : Type} (pn : String) (ut : UserTable)
    (td : Data) (tib : User → Data → PyVal) (s c : String) (r : Recipient)
    (ms : List Message) (user : User) (args : List String) (filled : String)
    (hg : ut.get_user pn r.get_id = some user)
    (hn : (tib user td).is_none = false)
    (hu : star_unpack (tib user td) = Except.ok args)
    (hf : py_format c args = Except.ok filled) :
    fill_messages pn ut td tib (⟨s, r, c⟩ :: ms) =
      match fill_messages pn ut td tib ms with
      | Except.error e => Except.error e
      | Except.ok out => Except.ok (⟨s, r, filled⟩ :: out) := by
  simp [fill_messages_cons, hg, hn, hu, hf]

theorem fill_messages_ok_map {Data : Type} (pn : String) (ut : UserTable)
    (td : Data) (tib : User → Data → PyVal) (sender content : String) :
    ∀ (recipients : List Recipient) (msgs : List Message),
      fill_messages pn ut td tib (basic_build_messages sender recipients content)
        = Except.ok msgs →
      msgs.map Message.recipient = recipients.filter (produces pn ut td tib) := by
  intro recipients
  induction recipients with
  | nil =>
    intro msgs h
    cases h
    rfl
  | cons r rest ih =>
    intro msgs h
    rw [basic_build_messages_cons] at h
    cases hg : ut.get_user pn r.get_id with
    | none =>
      rw [fill_cons_skip_missing pn ut td tib sender content r _ hg] at h
      have hp : produces pn ut td tib r = false := by simp [produces, hg]
      rw [List.filter_cons, hp]
      simp only [Bool.false_eq_true, if_false]
      exact ih msgs h
    | some user =>
      cases hn : (tib user td).is_none with
      | true =>
        rw [fill_cons_skip_none pn ut td tib sender content r _ user hg hn] at h
        have hp : produces pn ut td tib r = false := by
          simp [produces, hg, hn]
        rw [List.filter_cons, hp]
        simp only [Bool.false_eq_true, if_false]
        exact ih msgs h
      | false =>
        have hp : produces pn ut td tib r = true := by simp [produces, hg, hn]
        cases hu : star_unpack (tib user td) with
        | error e =>
          rw [fill_cons_unpack_error pn ut td tib sender content r _ user e
            hg hn hu] at h
          cases h
        | ok args =>
          cases hf : py_format content args with
          | error e =>
            rw [fill_cons_format_error pn ut td tib sender content r _ user
              args e hg hn hu hf] at h
            cases h
          | ok filled =>
            rw [fill_cons_ok pn ut td tib sender content r _ user args filled
              hg hn hu hf] at h
            cases hrest : fill_messages pn ut td tib
                (basic_build_messages sender rest content) with
            | error e =>
              rw [hrest] at h
              simp at h
            | ok out =>
              rw [hrest] at h
              simp only [Except.ok.injEq] at h
              subst h
              rw [List.filter_cons, hp, List.map_cons]
              simp only [if_true]
              congr 1
              exact ih out hrest

theorem fill_messages_ok_of_valid {Data : Type} (pn : String) (ut : UserTable)
    (td : Data) (tib : User → Data → PyVal) (sender content : String) :
    ∀ recipients : List Recipient,
      (∀ r ∈ recipients, ∀ u, ut.get_user pn r.get_id = some u →
        (tib u td).is_none = false →
        ∃ args out, star_unpack (tib u td) = Except.ok args ∧
          py_format content args = Except.ok out) →
      ∃ msgs, fill_messages pn ut td tib
        (basic_build_messages sender recipients content) = Except.ok msgs := by
  intro recipients
  induction recipients with
  | nil => intro hv; exact ⟨[], rfl⟩
  | cons r rest ih =>
    intro hv
    obtain ⟨ms, hms⟩ := ih (fun r' hr' => hv r' (List.mem_cons_of_mem _ hr'))
    rw [basic_build_messages_cons]
    cases hg : ut.get_user pn r.get_id with
    | none =>
      rw [fill_cons_skip_missing pn ut td tib sender content r _ hg]
      exact ⟨ms, hms⟩
    | some user =>
      cases hn : (tib user td).is_none with
      | true =>
        rw [fill_cons_skip_none pn ut td tib sender content r _ user hg hn]
        exact ⟨ms, hms⟩
      | false =>
        obtain ⟨args, out, hu, hf⟩ :=
          hv r (List.mem_cons_self _ _) user hg hn
        rw [fill_cons_ok pn ut td tib sender content r _ user args out
          hg hn hu hf, hms]
        exact ⟨⟨sender, r, out⟩ :: ms, rfl⟩

/-- C3: a recipient whose identifier is absent from the identity table
for the platform yields no output message (the lookup failure is
recovered per recipient and processing continues), and — provided the
builder returns a usable sequence wherever it does not return the
absence marker — the batch succeeds with output length equal to the
recipient count minus the unresolvable recipients minus the recipients
for which the builder returned the absence marker. -/
theorem build_messages_skip_counts {Data : Type} (pn sender content : String)
    (recipients : List Recipient) (td : Data) (ut : UserTable)
    (tib : User → Data → PyVal)
    (hv : ∀ r ∈ recipients, ∀ u, ut.get_user pn r.get_id = some u →
      (tib u td).is_none = false →
      ∃ args out, star_unpack (tib u td) = Except.ok args ∧
        py_format content args = Except.ok out) :
    ∃ msgs, build_messages pn sender recipients content td ut tib
        = Except.ok msgs ∧
      (∀ m ∈ msgs, (ut.get_user pn m.recipient.get_id).isSome = true) ∧
      msgs.length = recipients.length
        - recipients.countP (unresolvable pn ut)
        - recipients.countP (builder_absent pn ut td tib) := by
  obtain ⟨msgs, hmsgs⟩ :=
    fill_messages_ok_of_valid pn ut td tib sender content recipients hv
  have hmap :=
    fill_messages_ok_map pn ut td tib sender content recipients msgs hmsgs
  refine ⟨msgs, hmsgs, ?_, ?_⟩
  · intro m hm
    have hmem : m.recipient ∈ msgs.map Message.recipient :=
      List.mem_map_of_mem _ hm
    rw [hmap] at hmem
    have hp := (List.mem_filter.mp hmem).2
    cases hg : ut.get_user pn m.recipient.get_id with
    | none => simp [produces, hg] at hp
    | some user => simp
  · have hlen : msgs.length
        = (recipients.filter (produces pn ut td tib)).length := by
      rw [← hmap, List.length_map]
    have hcount := produces_partition pn ut td tib recipients
    rw [hlen, ← List.countP_eq_length_filter]
    omega

theorem build_messages_skip_counts_witness :
    ∃ msgs,
      build_messages "slack" "s" [Recipient.mk "alice", Recipient.mk "carol"]
          "Hi \x7b\x7d" () (UserTable.init [[("slack", ["alice"])]])
          (fun _ _ => PyVal.tuple ["A"])
        = Except.ok msgs ∧
      (∀ m ∈ msgs,
        ((UserTable.init [[("slack", ["alice"])]]).get_user "slack"
            m.recipient.get_id).isSome = true) ∧
      msgs.length = [Recipient.mk "alice", Recipient.mk "carol"].length
        - [Recipient.mk "alice", Recipient.mk "carol"].countP
            (unresolvable "slack" (UserTable.init [[("slack", ["alice"])]]))
        - [Recipient.mk "alice", Recipient.mk "carol"].countP
            (builder_absent "slack" (UserTable.init [[("slack", ["alice"])]]) ()
              (fun _ _ => PyVal.tuple ["A"])) :=
  build_messages_skip_counts "slack" "s" "Hi \x7b\x7d"
    [Recipient.mk "alice", Recipient.mk "carol"] ()
    (UserTable.init [[("slack", ["alice"])]])
    (fun _ _ => PyVal.tuple ["A"])
    (fun r hr u hu hn => ⟨["A"], "Hi A", rfl, rfl⟩)

/-- C5: on success the output message list is at most as long as the
input recipient list, the recipients of the output are exactly the
order-preserving filter of the input by "produces a message" (so each
such recipient yields exactly one message), and in particular the
output recipients form a sublist of the input — relative order is
preserved. -/
theorem build_messages_order_preservation {Data : Type}
    (pn sender content : String) (recipients : List Recipient) (td : Data)
    (ut : UserTable) (tib : User → Data → PyVal) (msgs : List Message)
    (h : build_messages pn sender recipients content td ut tib
      = Except.ok msgs) :
    msgs.map Message.recipient = recipients.filter (produces pn ut td tib) ∧
    msgs.length ≤ recipients.length ∧
    (msgs.map Message.recipient).Sublist recipients := by
  have hmap :=
    fill_messages_ok_map pn ut td tib sender content recipients msgs h
  refine ⟨hmap, ?_, ?_⟩
  · have : msgs.length = (msgs.map Message.recipient).length :=
      (List.length_map _ _).symm
    rw [this, hmap]
    exact List.length_filter_le _ _
  · rw [hmap]
    exact List.filter_sublist recipients

theorem build_messages_order_preservation_witness :
    (build_messages "slack" "s" [Recipient.mk "alice", Recipient.mk "bob"]
        "Hi \x7b\x7d" () (UserTable.init [[("slack", ["alice"])]])
        (fun _ _ => PyVal.tuple ["A"])
      = Except.ok [⟨"s", Recipient.mk "alice", "Hi A"⟩]) ∧
    (([⟨"s", Recipient.mk "alice", "Hi A"⟩] : List Message).map Message.recipient
        = [Recipient.mk "alice", Recipient.mk "bob"].filter
            (produces "slack" (UserTable.init [[("slack", ["alice"])]]) ()
              (fun _ _ => PyVal.tuple ["A"])) ∧
      ([⟨"s", Recipient.mk "alice", "Hi A"⟩] : List Message).length
          ≤ [Recipient.mk "alice", Recipient.mk "bob"].length ∧
      (([⟨"s", Recipient.mk "alice", "Hi A"⟩] : List Message).map
          Message.recipient).Sublist [Recipient.mk "alice", Recipient.mk "bob"]) :=
  ⟨rfl,
    build_messages_order_preservation "slack" "s" "Hi \x7b\x7d"
      [Recipient.mk "alice", Recipient.mk "bob"] ()
      (UserTable.init [[("slack", ["alice"])]])
      (fun _ _ => PyVal.tuple ["A"])
      [⟨"s", Recipient.mk "alice", "Hi A"⟩] rfl⟩

/-- C1: the claim that a builder returning a value that is not an
ordered sequence — in particular the bare string "Alice" with a
template expecting two placeholders — makes `build_messages` fail and
produce no messages.  The code does not behave this way at that input:
the string is star-unpacked into its characters and substituted
positionally, yielding the garbled message "Hi A l" with no error.  A
genuinely non-iterable builder output (an int) does abort the batch
with the `TypeError` carrying the "must be a tuple" message, producing
no messages. -/
theorem build_messages_string_splat :
    build_messages "slack" "sender" [Recipient.mk "alice"]
        "Hi \x7b\x7d \x7b\x7d" () (UserTable.init [[("slack", ["alice"])]])
        (fun _ _ => PyVal.str "Alice")
      = Except.ok [⟨"sender", Recipient.mk "alice", "Hi A l"⟩] ∧
    build_messages "slack" "sender" [Recipient.mk "alice"]
        "Hi \x7b\x7d \x7b\x7d" () (UserTable.init [[("slack", ["alice"])]])
        (fun _ _ => PyVal.int 3)
      = Except.error PyErr.typeError :=
  ⟨rfl, rfl⟩

/-- C4: with an empty caller-supplied recipient list the resolved
recipients are exactly the key list of `get_users platform_name` (the
identifiers known to the identity table for that platform), and any
non-empty recipient list is passed through unmodified, never
augmented. -/
theorem build_resources_default_expansion (pn : String) (utd : List User)
    (im : IdMap) (h : (UserTable.init utd).get_users pn = some im) :
    build_resources pn [] utd
        = some (im.map Prod.fst, UserTable.init utd) ∧
    ∀ rd : List String, ¬ rd = [] →
      build_resources pn rd utd = some (rd, UserTable.init utd) := by
  constructor
  · simp [build_resources, h]
  · intro rd hne
    simp [build_resources, hne]

theorem build_resources_default_expansion_witness :
    (UserTable.init [[("p", ["x", "y"])]]).get_users "p"
        = some [("x", [("p", ["x", "y"])]), ("y", [("p", ["x", "y"])])] ∧
    build_resources "p" [] [[("p", ["x", "y"])]]
        = some (["x", "y"], UserTable.init [[("p", ["x", "y"])]]) ∧
    build_resources "p" ["bob"] [[("p", ["x", "y"])]]
        = some (["bob"], UserTable.init [[("p", ["x", "y"])]]) :=
  ⟨rfl,
    (build_resources_default_expansion "p" [[("p", ["x", "y"])]]
      [("x", [("p", ["x", "y"])]), ("y", [("p", ["x", "y"])])] rfl).1,
    (build_resources_default_expansion "p" [[("p", ["x", "y"])]]
      [("x", [("p", ["x", "y"])]), ("y", [("p", ["x", "y"])])] rfl).2
      ["bob"] (by decide)⟩

/-- C9: when the caller supplies an empty recipient list and the named
platform appears nowhere in the user-table data, recipient resolution
fails with the `KeyError` (`NotFoundError`) from the `get_users` lookup
inside `build_resources`, before any message is constructed: the
dispatch pipeline returns that error and no message list. -/
theorem send_to_all_unknown_platform {Data : Type} (pn sender content : String)
    (td : Data) (utd : List User) (tib : User → Data → PyVal)
    (h : ∀ u ∈ utd, ∀ e ∈ u, ¬ e.1 = pn) :
    build_resources pn [] utd = Option.none ∧
    send_to_all pn sender [] content td utd tib
      = Except.error PyErr.keyError := by
  have hgu := get_users_unseen utd pn h
  have h1 : build_resources pn [] utd = Option.none := by
    simp [build_resources, hgu]
  refine ⟨h1, ?_⟩
  simp [send_to_all, h1]

theorem send_to_all_unknown_platform_witness :
    build_resources "p" [] [[("q", ["x"])]] = Option.none ∧
    send_to_all "p" "s" [] "Hi" () [[("q", ["x"])]]
        (fun _ _ => PyVal.tuple []) = Except.error PyErr.keyError :=
  send_to_all_unknown_platform "p" "s" "Hi" () [[("q", ["x"])]]
    (fun _ _ => PyVal.tuple []) (by decide)
